import Mathlib

/-!
# BeagleG look-ahead motion planner — verification development

The repository provides the planner's unit tests (`src/planner_test.cc`) and
the machine-control interface (`src/gcode-machine-control.h`); the planner
implementation itself (`planner.cc` / `gcode-machine-control.cc`) is not part
of the source tree.  The planner is therefore modelled from the specification
(§3 data model, §4.2 StepConverter, §4.3 JunctionPolicy, §4.4 MoveBuffer
backward pass, §4.5 TrapezoidShaper, §4.1 façade operations), and the claims
are settled against that model.  The unit tests fix the concrete scenarios
(configurations, targets, feedrates and expected segment lists).

Modelling conventions:

* Axes are the three Euclidean positioning axes X, Y, Z (the only ones the
  tests exercise); an axes register is a triple of reals (mm / mm/s).
* Step counts are integers (`round(delta_mm * steps_per_mm)` per §4.2.2).
* All internal speed bookkeeping is done on **squared** defining-axis step
  rates (`entrySq`, `exitSq`, `nominalSq`, …).  Every formula of §4.2–§4.5
  touches speeds only through their squares (or linearly, for accelerations),
  so this representation is exactly the spec's arithmetic with the final
  square root deferred to segment emission: an emitted segment carries
  `v0 = Real.sqrt entrySq` etc.  Equality/order of the nonnegative rates and
  of their squares coincide.
* `BringPathToHalt` pins the tail exit speed to zero, re-runs the backward
  pass and shapes/emits every queued move in FIFO order (§4.1, §4.4).  The
  model emits at halt, the maximally conservative instance of §4.4.4's
  "implementations MAY require … before emitting" latitude; emission order
  and the emitted values are those of the converged backward pass.
-/

open scoped Classical

namespace BeagleG

/-- Logical axis identifier (§3 Axis): the three Euclidean positioning axes. -/
inductive Axis : Type
  | X : Axis
  | Y : Axis
  | Z : Axis
deriving DecidableEq, Repr

/-- AxesRegister (§3): mapping axis → scalar (mm for positions, mm/s for
feedrates).  Value semantics. -/
structure Vec3 : Type where
  x : ℝ
  y : ℝ
  z : ℝ

/-- Per-axis signed integer step counts (§6 `steps[NUM_AXES]`). -/
structure IVec3 : Type where
  x : ℤ
  y : ℤ
  z : ℤ
deriving DecidableEq, Repr

/-- Read a real-valued register by axis. -/
def Vec3.get (v : Vec3) : Axis → ℝ
  | Axis.X => v.x
  | Axis.Y => v.y
  | Axis.Z => v.z

/-- Read an integer step register by axis. -/
def IVec3.get (s : IVec3) : Axis → ℤ
  | Axis.X => s.x
  | Axis.Y => s.y
  | Axis.Z => s.z

/-- MachineConfig (§3, §6): the per-axis options the planner reads. -/
structure MachineConfig : Type where
  steps_per_mm : Vec3
  max_feedrate : Vec3
  acceleration : Vec3
  speed_factor : ℝ
  threshold_angle : ℝ

/-- Config validity (§7 `ConfigInvalid`): every required per-axis parameter
(`steps_per_mm`, `max_feedrate`, `acceleration`) is strictly positive.  (NaN
has no counterpart in the real-number model.) -/
def MachineConfig.Valid (cfg : MachineConfig) : Prop :=
  (0 < cfg.steps_per_mm.x ∧ 0 < cfg.steps_per_mm.y ∧ 0 < cfg.steps_per_mm.z) ∧
  (0 < cfg.max_feedrate.x ∧ 0 < cfg.max_feedrate.y ∧ 0 < cfg.max_feedrate.z) ∧
  (0 < cfg.acceleration.x ∧ 0 < cfg.acceleration.y ∧ 0 < cfg.acceleration.z)

/-- QueuedMove (§3): one pending move of the look-ahead buffer.  Speeds are
stored as squared defining-axis step rates (see the file header). -/
structure QueuedMove : Type where
  /-- signed integer step counts of the move (§3 `delta_steps`) -/
  deltaSteps : IVec3
  /-- Euclidean (XYZ) mm delta; `direction` of §3 is this divided by the
  Euclidean length -/
  deltaMm : Vec3
  /-- squared Euclidean length ‖XYZ delta‖² in mm² (§3 `euclid_len`) -/
  lenSq : ℝ
  /-- axis with greatest absolute step count (§3 `defining_axis`) -/
  defAxis : Axis
  /-- squared `nominal_step_rate` (§3, §4.2.6) -/
  nominalSq : ℝ
  /-- `accel_step_rate` (§3, §4.2.7), defining-axis steps/s² (linear, not
  squared) -/
  accel : ℝ
  /-- squared `entry_step_rate` -/
  entrySq : ℝ
  /-- squared `exit_step_rate` -/
  exitSq : ℝ

/-- LinearSegmentSteps (§6): the record handed to the motor backend.
`v0`/`v1` are the defining-axis step rates (steps/s) at segment start/end. -/
structure LinearSegmentSteps : Type where
  steps : IVec3
  v0 : ℝ
  v1 : ℝ

/-- Default segment (used only by the total head access `List.headI` in the
sweep claims). -/
instance : Inhabited LinearSegmentSteps := ⟨⟨⟨0, 0, 0⟩, 0, 0⟩⟩

/-- Planner façade state (§4.1, §9): current logical position and the move
buffer. -/
structure PState : Type where
  pos : Vec3
  queue : List QueuedMove

/-- Per-axis step counts from a mm delta (§4.2.2
`delta_steps[a] = round(d[a]·steps_per_mm[a])`). -/
noncomputable def stepsOfDelta (cfg : MachineConfig) (delta : Vec3) : IVec3 :=
  ⟨round (delta.x * cfg.steps_per_mm.x),
   round (delta.y * cfg.steps_per_mm.y),
   round (delta.z * cfg.steps_per_mm.z)⟩

/-- Defining axis (§4.2.3): the axis with the largest absolute step count,
ties broken by axis enum order (the sequential strictly-greater scan of the
test helper `calcEuclidSpeed`, `planner_test.cc:84-86`). -/
def definingAxis (s : IVec3) : Axis :=
  if |s.y| > |s.x| then (if |s.z| > |s.y| then Axis.Z else Axis.Y)
  else (if |s.z| > |s.x| then Axis.Z else Axis.X)

/-- Squared Euclidean length of a mm delta. -/
def normSq (v : Vec3) : ℝ := v.x ^ 2 + v.y ^ 2 + v.z ^ 2

/-- Squared per-axis feedrate-clamp ratio of §4.2.5: for an axis with
non-zero delta, the square of
`(max_feedrate[a]·steps_per_mm[a]) / (|d[a]|/euclid_len · f · steps_per_mm[a])`,
the largest scale at which that axis's step rate stays within its limit.
Axes with zero delta impose no constraint (the overall scale is capped at 1
separately, so `1` is a neutral placeholder). -/
noncomputable def feedRatioSq (maxf spm d f lenSq : ℝ) : ℝ :=
  if d = 0 then 1 else (maxf * spm) ^ 2 * lenSq / (d ^ 2 * f ^ 2 * spm ^ 2)

/-- Minimum on optional candidates (absent axes impose no constraint). -/
noncomputable def optMin : Option ℝ → Option ℝ → Option ℝ
  | Option.none, b => b
  | Option.some a, Option.none => Option.some a
  | Option.some a, Option.some b => Option.some (min a b)

/-- Acceleration constraint candidate of one axis (§4.2.7): an axis moving
`|d|` mm per unit of Euclidean path length saturates its limit at Euclidean
acceleration `acceleration[a]·euclid_len/|d[a]|`; dividing the projection by
`euclid_len` leaves `acceleration[a]/|d[a]|` per defining-axis step. -/
noncomputable def accelCandidate (acc d : ℝ) : Option ℝ :=
  if d = 0 then Option.none else Option.some (acc / |d|)

/-- Most-constrained Euclidean acceleration per mm of path (§3
`accel_step_rate` "derived from the most-constrained axis along the
direction"). -/
noncomputable def accelPerMm (cfg : MachineConfig) (delta : Vec3) : Option ℝ :=
  optMin (accelCandidate cfg.acceleration.x delta.x)
    (optMin (accelCandidate cfg.acceleration.y delta.y)
      (accelCandidate cfg.acceleration.z delta.z))

/-- StepConverter (§4.2): build the queued move for a mm delta at the
requested feedrate.  Entry/exit speeds start at zero and are assigned by the
buffer logic. -/
noncomputable def convertMove (cfg : MachineConfig) (delta : Vec3) (feed : ℝ) :
    QueuedMove :=
  let steps := stepsOfDelta cfg delta
  let lenSq := normSq delta
  let dax := definingAxis steps
  let sSq :=
    min 1 (min (feedRatioSq cfg.max_feedrate.x cfg.steps_per_mm.x delta.x feed lenSq)
      (min (feedRatioSq cfg.max_feedrate.y cfg.steps_per_mm.y delta.y feed lenSq)
        (feedRatioSq cfg.max_feedrate.z cfg.steps_per_mm.z delta.z feed lenSq)))
  let clampSq := sSq * feed ^ 2 * cfg.speed_factor ^ 2
  { deltaSteps := steps
    deltaMm := delta
    lenSq := lenSq
    defAxis := dax
    nominalSq :=
      if lenSq = 0 then clampSq * (cfg.steps_per_mm.get dax) ^ 2
      else clampSq * ((steps.get dax : ℝ)) ^ 2 / lenSq
    accel :=
      ((accelPerMm cfg delta).getD
        (cfg.acceleration.get dax * cfg.steps_per_mm.get dax)) *
        |((steps.get dax : ℝ))|
    entrySq := 0
    exitSq := 0 }

/-- Absolute defining-axis step count of a move (the `N` of §4.5). -/
noncomputable def defSteps (m : QueuedMove) : ℝ := |((m.deltaSteps.get m.defAxis : ℝ))|

/-- Fixed implementation constant of §4.3: the minimum segment time from
which the per-axis speed-jump limits derive (`kMinJunctionTime`; the spec
leaves the exact value to the implementation, only positivity matters). -/
noncomputable def kMinJunctionTime : ℝ := 1 / 1000

/-- Absolute per-axis difference of the two unit direction vectors at a
junction (the `|u₂[a] − u₁[a]|` of §4.3). -/
noncomputable def unitDiffAbs (m1 m2 : QueuedMove) (a : Axis) : ℝ :=
  |m2.deltaMm.get a / Real.sqrt m2.lenSq - m1.deltaMm.get a / Real.sqrt m1.lenSq|

/-- Squared per-axis jump cap of §4.3: the junction speed `v` must satisfy
`|u₂[a]·v − u₁[a]·v| ≤ v_axis_jump_limit[a]` with the jump limit derived from
`acceleration[a]` and `kMinJunctionTime`; the Euclidean cap is converted into
the successor's defining-axis step space.  An axis whose direction component
does not change imposes no constraint (placeholder above both nominals). -/
noncomputable def axisJumpCapSq (cfg : MachineConfig) (m1 m2 : QueuedMove)
    (a : Axis) : ℝ :=
  if unitDiffAbs m1 m2 a = 0 then max m1.nominalSq m2.nominalSq
  else (cfg.acceleration.get a * kMinJunctionTime / unitDiffAbs m1 m2 a) ^ 2 *
    ((m2.deltaSteps.get m2.defAxis : ℝ)) ^ 2 / m2.lenSq

/-- JunctionPolicy (§4.3), squared junction speed.  Zero when either move has
no Euclidean length; otherwise the angular deviation
`θ = acos(clamp(u₁·u₂, −1, 1))` decides: sharp corners (`θ` beyond the
threshold angle) stop fully, shallow corners run at the smaller nominal speed
further clamped by the per-axis jump caps. -/
noncomputable def junctionSq (cfg : MachineConfig) (m1 m2 : QueuedMove) : ℝ :=
  if m1.lenSq = 0 ∨ m2.lenSq = 0 then 0
  else
    let dot := m1.deltaMm.x * m2.deltaMm.x + m1.deltaMm.y * m2.deltaMm.y +
      m1.deltaMm.z * m2.deltaMm.z
    let cosv := max (-1) (min 1 (dot / (Real.sqrt m1.lenSq * Real.sqrt m2.lenSq)))
    if Real.arccos cosv ≤ cfg.threshold_angle * Real.pi / 180 then
      min (min m1.nominalSq m2.nominalSq)
        (min (axisJumpCapSq cfg m1 m2 Axis.X)
          (min (axisJumpCapSq cfg m1 m2 Axis.Y) (axisJumpCapSq cfg m1 m2 Axis.Z)))
    else 0

/-- Squared entry-speed cap of the backward pass (§4.4.3
`entry_cap = sqrt(exit² + 2·accel·len_defining_steps)`). -/
noncomputable def entryCapSq (m : QueuedMove) (exitSq : ℝ) : ℝ :=
  exitSq + 2 * m.accel * defSteps m

/-- MoveBuffer backward pass (§4.4.3): sweep from the tail towards the head;
each move's exit is pinned to its successor's (possibly lowered) entry, and
its entry is lowered to the reachability cap `min(entry_desired, entry_cap)`
(the stored entry is the junction-desired value, only ever lowered). -/
noncomputable def backwardPass : List QueuedMove → List QueuedMove
  | [] => []
  | m :: rest =>
    match backwardPass rest with
    | [] => [{ m with entrySq := min m.entrySq (entryCapSq m m.exitSq) }]
    | m2 :: rest2 =>
      { m with exitSq := m2.entrySq,
               entrySq := min m.entrySq (entryCapSq m m2.entrySq) } :: m2 :: rest2

/-- Per-axis segment step split (§4.5.2): step counts scaled by the share of
the defining-axis steps the sub-segment covers, rounded per axis. -/
noncomputable def scaledSteps (s : IVec3) (r : ℝ) : IVec3 :=
  ⟨round (r * (s.x : ℝ)), round (r * (s.y : ℝ)), round (r * (s.z : ℝ))⟩

/-- Per-axis difference of step counts (used to hand the rounding residual to
the remaining sub-segment so per-axis sums are exact, §4.5.3). -/
def stepsSub (a b : IVec3) : IVec3 := ⟨a.x - b.x, a.y - b.y, a.z - b.z⟩

/-- TrapezoidShaper (§4.5): split one planned move into up to three
segments.  With entry rate `v₀ = √entrySq`, exit rate `v₂ = √exitSq`, nominal
`v_n`, acceleration `a` and `N` defining-axis steps: if the full accel and
decel ramps to/from nominal fit in `N`, emit accel/cruise/decel (cruise
omitted when it has zero steps); otherwise the peak is the triangular
solution of `N_accel + N_decel = N`; if even that peak cannot dominate both
endpoint speeds the move is all-accel/all-decel (§4.5 edge case, §9 known
glitch) and a single segment carrying the planned endpoint speeds is
emitted. -/
noncomputable def shape (m : QueuedMove) : List LinearSegmentSteps :=
  if defSteps m = 0 then []
  else
    let N := defSteps m
    let v0 := Real.sqrt m.entrySq
    let v2 := Real.sqrt m.exitSq
    let nAcc := (m.nominalSq - m.entrySq) / (2 * m.accel)
    let nDec := (m.nominalSq - m.exitSq) / (2 * m.accel)
    if nAcc + nDec ≤ N then
      let vn := Real.sqrt m.nominalSq
      let accSteps := scaledSteps m.deltaSteps (nAcc / N)
      let decSteps := scaledSteps m.deltaSteps (nDec / N)
      if nAcc + nDec < N then
        [⟨accSteps, v0, vn⟩,
         ⟨stepsSub (stepsSub m.deltaSteps accSteps) decSteps, vn, vn⟩,
         ⟨decSteps, vn, v2⟩]
      else
        [⟨accSteps, v0, vn⟩, ⟨stepsSub m.deltaSteps accSteps, vn, v2⟩]
    else
      let peakSq := (2 * m.accel * N + m.entrySq + m.exitSq) / 2
      if max m.entrySq m.exitSq ≤ peakSq then
        let vp := Real.sqrt peakSq
        let accSteps := scaledSteps m.deltaSteps ((peakSq - m.entrySq) / (2 * m.accel) / N)
        [⟨accSteps, v0, vp⟩, ⟨stepsSub m.deltaSteps accSteps, vp, v2⟩]
      else
        [⟨m.deltaSteps, v0, v2⟩]

/-- Initial planner state: homed at the origin, empty buffer. -/
def initState : PState := ⟨⟨0, 0, 0⟩, []⟩

/-- Planner façade `Enqueue` (§4.1, §4.4): a move whose per-axis step deltas
are all zero is silently absorbed (`NoMotion`, §7).  Otherwise the move is
converted, its entry speed seeded with the junction speed against the
predecessor (zero from a halted path), its exit tentatively zero, and the
backward pass re-run over the buffer; the logical position is updated
immediately. -/
noncomputable def enqueue (cfg : MachineConfig) (st : PState) (target : Vec3)
    (feed : ℝ) : PState :=
  let delta : Vec3 := ⟨target.x - st.pos.x, target.y - st.pos.y, target.z - st.pos.z⟩
  let steps := stepsOfDelta cfg delta
  if steps.x = 0 ∧ steps.y = 0 ∧ steps.z = 0 then st
  else
    let m := convertMove cfg delta feed
    let mEnt :=
      { m with entrySq :=
          match st.queue.getLast? with
          | Option.none => 0
          | Option.some p => junctionSq cfg p m }
    { pos := target, queue := backwardPass (st.queue ++ [mEnt]) }

/-- Force the tail move's exit speed to zero (§4.1 `BringPathToHalt`). -/
noncomputable def setTailExitZero : List QueuedMove → List QueuedMove
  | [] => []
  | [m] => [{ m with exitSq := 0 }]
  | m :: m2 :: rest => m :: setTailExitZero (m2 :: rest)

/-- Planner façade `BringPathToHalt` (§4.1): pin the tail exit speed to zero,
re-run the backward pass, then shape and emit every queued move in FIFO
order. -/
noncomputable def bringPathToHalt (st : PState) : List LinearSegmentSteps :=
  (backwardPass (setTailExitZero st.queue)).flatMap shape

/-- Run a whole test scenario: a sequence of `Enqueue(target, feed)` calls
from the initial state followed by `BringPathToHalt`, returning the emitted
segment list (the `PlannerHarness::segments()` observation of the tests). -/
noncomputable def runPlanner (cfg : MachineConfig) (moves : List (Vec3 × ℝ)) :
    List LinearSegmentSteps :=
  bringPathToHalt (moves.foldl (fun st mv => enqueue cfg st mv.1 mv.2) initState)

/-- Modelled from the spec: `GCodeMachineControl::Create`
(`gcode-machine-control.h:81`, implementation not in the source tree) —
"Returns NULL on failure"; §7 `ConfigInvalid`: construction fails when a
required per-axis parameter is non-positive (NaN has no real-number
counterpart), and no planner instance is created. -/
noncomputable def createMachineControl (cfg : MachineConfig) : Option PState :=
  if cfg.Valid then Option.some initState else Option.none

/-- Test configuration of `InitTestConfig` (`planner_test.cc:25-37`):
steps/mm 1000, 8000, 64000 on X, Y, Z; acceleration 100 mm/s²; max feedrate
10000 mm/s; the threshold angle is per-test. -/
def testConfig (threshold : ℝ) : MachineConfig :=
  { steps_per_mm := ⟨1000, 8000, 64000⟩
    max_feedrate := ⟨10000, 10000, 10000⟩
    acceleration := ⟨100, 100, 100⟩
    speed_factor := 1
    threshold_angle := threshold }

/-- First target of the corner-sweep scenarios (`DoAngleMove`,
`planner_test.cc:262-269`): 100 mm from the origin at `a` degrees. -/
noncomputable def sweepTarget1 (a : ℝ) : Vec3 :=
  ⟨100 * Real.cos (a * Real.pi / 180), 100 * Real.sin (a * Real.pi / 180), 0⟩

/-- Second target of the corner-sweep scenarios (`planner_test.cc:271-274`):
100 mm further, the direction turned by `d` degrees. -/
noncomputable def sweepTarget2 (a d : ℝ) : Vec3 :=
  ⟨(sweepTarget1 a).x + 100 * Real.cos ((a + d) * Real.pi / 180),
   (sweepTarget1 a).y + 100 * Real.sin ((a + d) * Real.pi / 180), 0⟩

/-- Buffer invariant used by the quantified claims: every queued move has a
non-zero defining-axis step count (`Enqueue` drops all-zero moves). -/
def QueueSteps (q : List QueuedMove) : Prop := ∀ m ∈ q, 0 < defSteps m

/-- Buffer invariant: the head of the queue enters at (squared) speed ≤ 0,
i.e. the path starts from a halt. -/
def HeadEntryLE (q : List QueuedMove) : Prop := ∀ m ∈ q.head?, m.entrySq ≤ 0

/-- The fields of a move a backward-pass rewrite can change are only the
entry/exit speeds. -/
def SameShapeData (m' m : QueuedMove) : Prop :=
  m'.deltaSteps = m.deltaSteps ∧ m'.defAxis = m.defAxis

/-! ## Structural lemmas: defining axis, backward pass, tail pinning -/

theorem definingAxis_le (s : IVec3) (a : Axis) :
    |s.get a| ≤ |s.get (definingAxis s)| := by
  cases a <;>
    · unfold definingAxis
      split_ifs <;> simp_all [IVec3.get] <;> omega

theorem defSteps_pos_of_not_zero (s : IVec3) (h : ¬(s.x = 0 ∧ s.y = 0 ∧ s.z = 0))
    (m : QueuedMove) (hs : m.deltaSteps = s) (hd : m.defAxis = definingAxis s) :
    0 < defSteps m := by
  unfold defSteps
  rw [hs, hd]
  have h2 : s.get (definingAxis s) ≠ 0 := by
    intro h0
    apply h
    have hx := definingAxis_le s Axis.X
    have hy := definingAxis_le s Axis.Y
    have hz := definingAxis_le s Axis.Z
    rw [h0] at hx hy hz
    simp only [IVec3.get, abs_zero, abs_nonpos_iff] at hx hy hz
    exact ⟨hx, hy, hz⟩
  have : ((s.get (definingAxis s) : ℝ)) ≠ 0 := by exact_mod_cast h2
  positivity

theorem backwardPass_nil : backwardPass [] = [] := rfl

theorem backwardPass_cons_nil {rest : List QueuedMove} (m : QueuedMove)
    (h : backwardPass rest = []) :
    backwardPass (m :: rest) =
      [{ m with entrySq := min m.entrySq (entryCapSq m m.exitSq) }] := by
  simp only [backwardPass, h]

theorem backwardPass_cons_cons {rest rest2 : List QueuedMove} (m m2 : QueuedMove)
    (h : backwardPass rest = m2 :: rest2) :
    backwardPass (m :: rest) =
      { m with exitSq := m2.entrySq,
               entrySq := min m.entrySq (entryCapSq m m2.entrySq) } :: m2 :: rest2 := by
  simp only [backwardPass, h]

theorem backwardPass_length (l : List QueuedMove) :
    (backwardPass l).length = l.length := by
  induction l with
  | nil => rfl
  | cons m rest ih =>
    rw [backwardPass]
    rcases h : backwardPass rest with _ | ⟨m2, rest2⟩
    · rw [h] at ih
      cases rest
      · rfl
      · simp at ih
    · rw [h] at ih
      simpa using ih

theorem backwardPass_ne_nil {l : List QueuedMove} (h : l ≠ []) :
    backwardPass l ≠ [] := by
  intro h0
  have := backwardPass_length l
  rw [h0] at this
  exact h (List.length_eq_zero.mp this.symm)

theorem backwardPass_chain (l : List QueuedMove) :
    List.Chain' (fun a b => a.exitSq = b.entrySq) (backwardPass l) := by
  induction l with
  | nil => exact List.chain'_nil
  | cons m rest ih =>
    rw [backwardPass]
    rcases h : backwardPass rest with _ | ⟨m2, rest2⟩
    · exact List.chain'_singleton _
    · rw [h] at ih
      exact List.chain'_cons.mpr ⟨rfl, ih⟩

theorem backwardPass_mem {l : List QueuedMove} {m' : QueuedMove}
    (h : m' ∈ backwardPass l) : ∃ m ∈ l, SameShapeData m' m := by
  induction l with
  | nil => simp [backwardPass] at h
  | cons m rest ih =>
    rw [backwardPass] at h
    rcases hb : backwardPass rest with _ | ⟨m2, rest2⟩
    · rw [hb] at h
      simp only [List.mem_singleton] at h
      exact ⟨m, List.mem_cons_self m rest, by simp [h, SameShapeData]⟩
    · rw [hb] at h
      rcases List.mem_cons.mp h with h1 | h1
      · exact ⟨m, List.mem_cons_self m rest, by simp [h1, SameShapeData]⟩
      · rcases ih (hb ▸ h1) with ⟨m0, hm0, hsame⟩
        exact ⟨m0, List.mem_cons_of_mem m hm0, hsame⟩

theorem backwardPass_head_entry {l : List QueuedMove} {m' : QueuedMove}
    (h : (backwardPass l).head? = Option.some m') :
    ∃ m, l.head? = Option.some m ∧ m'.entrySq ≤ m.entrySq := by
  cases l with
  | nil => simp [backwardPass] at h
  | cons m rest =>
    rw [backwardPass] at h
    rcases hb : backwardPass rest with _ | ⟨m2, rest2⟩
    · rw [hb] at h
      simp only [List.head?_cons, Option.some_inj] at h
      exact ⟨m, rfl, by rw [← h]; exact min_le_left _ _⟩
    · rw [hb] at h
      simp only [List.head?_cons, Option.some_inj] at h
      exact ⟨m, rfl, by rw [← h]; exact min_le_left _ _⟩

theorem backwardPass_getLast_exit (l : List QueuedMove) :
    ((backwardPass l).getLast?).map QueuedMove.exitSq =
      (l.getLast?).map QueuedMove.exitSq := by
  induction l with
  | nil => rfl
  | cons m rest ih =>
    rcases hb : backwardPass rest with _ | ⟨m2, rest2⟩
    · rw [backwardPass_cons_nil m hb]
      have : rest = [] := by
        have := backwardPass_length rest
        rw [hb] at this
        exact List.length_eq_zero.mp this.symm
      subst this
      simp
    · rw [hb] at ih
      have hrne : rest ≠ [] := by
        intro h0
        rw [h0] at hb
        simp [backwardPass] at hb
      rw [backwardPass_cons_cons m m2 hb, List.getLast?_cons_cons, ih]
      cases rest with
      | nil => exact absurd rfl hrne
      | cons a t => rw [List.getLast?_cons_cons]

theorem setTailExitZero_mem {l : List QueuedMove} {m' : QueuedMove}
    (h : m' ∈ setTailExitZero l) : ∃ m ∈ l, SameShapeData m' m := by
  induction l with
  | nil => simp [setTailExitZero] at h
  | cons m rest ih =>
    cases rest with
    | nil =>
      simp only [setTailExitZero, List.mem_singleton] at h
      exact ⟨m, List.mem_cons_self m [], by simp [h, SameShapeData]⟩
    | cons m2 rest2 =>
      rw [setTailExitZero] at h
      rcases List.mem_cons.mp h with h1 | h1
      · exact ⟨m, List.mem_cons_self m _, by simp [h1, SameShapeData]⟩
      · rcases ih h1 with ⟨m0, hm0, hsame⟩
        exact ⟨m0, List.mem_cons_of_mem m hm0, hsame⟩

theorem setTailExitZero_length (l : List QueuedMove) :
    (setTailExitZero l).length = l.length := by
  induction l with
  | nil => rfl
  | cons m rest ih =>
    cases rest with
    | nil => rfl
    | cons m2 rest2 => simpa [setTailExitZero] using ih

theorem setTailExitZero_getLast_exit {l : List QueuedMove} (h : l ≠ []) :
    ∃ m, (setTailExitZero l).getLast? = Option.some m ∧ m.exitSq = 0 := by
  induction l with
  | nil => exact absurd rfl h
  | cons m rest ih =>
    cases rest with
    | nil => exact ⟨_, rfl, rfl⟩
    | cons m2 rest2 =>
      rcases ih (by simp) with ⟨mt, hmt, hz⟩
      refine ⟨mt, ?_, hz⟩
      simp only [setTailExitZero]
      rcases hs : setTailExitZero (m2 :: rest2) with _ | ⟨b, lb⟩
      · have hlen := setTailExitZero_length (m2 :: rest2)
        rw [hs] at hlen
        simp at hlen
      · rw [hs] at hmt
        rw [List.getLast?_cons_cons]
        exact hmt

theorem setTailExitZero_head_entry {l : List QueuedMove} (h : HeadEntryLE l) :
    HeadEntryLE (setTailExitZero l) := by
  intro m' hm'
  cases l with
  | nil => simp [setTailExitZero] at hm'
  | cons m rest =>
    cases rest with
    | nil =>
      simp only [setTailExitZero, List.head?_cons, Option.mem_def, Option.some_inj] at hm'
      have := h m (by simp)
      rw [← hm']
      exact this
    | cons m2 rest2 =>
      rw [setTailExitZero] at hm'
      simp only [List.head?_cons, Option.mem_def, Option.some_inj] at hm'
      have := h m (by simp)
      rw [← hm']
      exact this

/-! ## Structural lemmas: the trapezoid shaper -/

theorem defSteps_congr {a b : QueuedMove} (h : SameShapeData a b) :
    defSteps a = defSteps b := by
  unfold defSteps
  rw [h.1, h.2]

theorem shape_ne_nil {m : QueuedMove} (h : defSteps m ≠ 0) : shape m ≠ [] := by
  simp only [shape]
  split_ifs <;> simp_all

theorem shape_chain (m : QueuedMove) :
    List.Chain' (fun s t => s.v1 = t.v0) (shape m) := by
  simp only [shape]
  split_ifs <;> simp [List.chain'_cons, List.chain'_singleton]

theorem shape_head_v0 {m : QueuedMove} {s : LinearSegmentSteps}
    (h : (shape m).head? = Option.some s) : s.v0 = Real.sqrt m.entrySq := by
  simp only [shape] at h
  split_ifs at h
  · simp at h
  all_goals (rw [List.head?_cons, Option.some_inj] at h; rw [← h])

theorem shape_last_v1 {m : QueuedMove} {s : LinearSegmentSteps}
    (h : (shape m).getLast? = Option.some s) : s.v1 = Real.sqrt m.exitSq := by
  simp only [shape] at h
  split_ifs at h
  · simp at h
  all_goals (simp only [List.getLast?_cons_cons, List.getLast?_singleton,
    Option.some_inj] at h; rw [← h])

theorem flatMap_shape_ne_nil {l : List QueuedMove} (hl : l ≠ [])
    (h1 : ∀ m ∈ l, defSteps m ≠ 0) : l.flatMap shape ≠ [] := by
  cases l with
  | nil => exact absurd rfl hl
  | cons m rest =>
    rw [List.flatMap_cons]
    intro h0
    rcases List.append_eq_nil.mp h0 with ⟨h2, _⟩
    exact shape_ne_nil (h1 m (List.mem_cons_self m rest)) h2

theorem flatMap_shape_head {l : List QueuedMove} {m : QueuedMove}
    (hm : l.head? = Option.some m) :
    (l.flatMap shape).head? = (shape m ++ l.tail.flatMap shape).head? := by
  cases l with
  | nil => simp at hm
  | cons a rest =>
    simp only [List.head?_cons, Option.some_inj] at hm
    subst hm
    rfl

theorem flatMap_shape_getLast {l : List QueuedMove} {m : QueuedMove}
    (h1 : ∀ m ∈ l, defSteps m ≠ 0) (hm : l.getLast? = Option.some m) :
    (l.flatMap shape).getLast? = (shape m).getLast? := by
  induction l with
  | nil => simp at hm
  | cons a rest ih =>
    cases rest with
    | nil =>
      simp only [List.getLast?_singleton, Option.some_inj] at hm
      subst hm
      simp
    | cons b rest2 =>
      rw [List.getLast?_cons_cons] at hm
      rw [List.flatMap_cons]
      have hne : (b :: rest2).flatMap shape ≠ [] :=
        flatMap_shape_ne_nil (by simp)
          (fun x hx => h1 x (List.mem_cons_of_mem a hx))
      rw [List.getLast?_append_of_ne_nil _ hne]
      exact ih (fun x hx => h1 x (List.mem_cons_of_mem a hx)) hm

theorem flatMap_shape_chain {l : List QueuedMove}
    (h1 : ∀ m ∈ l, defSteps m ≠ 0)
    (h2 : List.Chain' (fun a b => a.exitSq = b.entrySq) l) :
    List.Chain' (fun s t => s.v1 = t.v0) (l.flatMap shape) := by
  induction l with
  | nil => simp
  | cons m rest ih =>
    rw [List.flatMap_cons]
    apply List.chain'_append.mpr
    refine ⟨shape_chain m,
      ih (fun x hx => h1 x (List.mem_cons_of_mem m hx)) (List.chain'_cons'.mp h2).2, ?_⟩
    intro x hx y hy
    cases rest with
    | nil => simp at hy
    | cons m2 rest2 =>
      rw [List.flatMap_cons,
        List.head?_append_of_ne_nil _
          (shape_ne_nil (h1 m2 (List.mem_cons_of_mem m (List.mem_cons_self m2 rest2))))] at hy
      have hx1 : x.v1 = Real.sqrt m.exitSq := shape_last_v1 hx
      have hy1 : y.v0 = Real.sqrt m2.entrySq := shape_head_v0 hy
      have hj : m.exitSq = m2.entrySq := (List.chain'_cons.mp h2).1
      rw [hx1, hy1, hj]

/-! ## Queue invariants through Enqueue -/

theorem enqueue_queueSteps {cfg : MachineConfig} {st : PState} {t : Vec3} {f : ℝ}
    (h : QueueSteps st.queue) : QueueSteps (enqueue cfg st t f).queue := by
  simp only [enqueue]
  split_ifs with h0
  · exact h
  · intro m' hm'
    obtain ⟨m, hm, hsame⟩ := backwardPass_mem hm'
    rw [defSteps_congr hsame]
    rcases List.mem_append.mp hm with h1 | h1
    · exact h m h1
    · simp only [List.mem_singleton] at h1
      subst h1
      exact defSteps_pos_of_not_zero _ h0 _ rfl rfl

theorem enqueue_headEntry {cfg : MachineConfig} {st : PState} {t : Vec3} {f : ℝ}
    (h : HeadEntryLE st.queue) : HeadEntryLE (enqueue cfg st t f).queue := by
  simp only [enqueue]
  split_ifs with h0
  · exact h
  · intro m' hm'
    simp only [Option.mem_def] at hm'
    obtain ⟨m, hmhead, hle⟩ := backwardPass_head_entry hm'
    rcases hq : st.queue with _ | ⟨a, rest⟩
    · rw [hq] at hmhead
      simp only [List.nil_append, List.head?_cons, Option.some_inj] at hmhead
      subst hmhead
      simp only [List.getLast?_nil] at hle
      exact hle
    · rw [hq, List.cons_append, List.head?_cons, Option.some_inj] at hmhead
      subst hmhead
      exact le_trans hle (h a (by rw [hq]; rfl))

theorem foldl_queueSteps (cfg : MachineConfig) (moves : List (Vec3 × ℝ)) :
    ∀ st : PState, QueueSteps st.queue →
      QueueSteps ((moves.foldl (fun s mv => enqueue cfg s mv.1 mv.2) st).queue) := by
  induction moves with
  | nil => intro st h; exact h
  | cons mv rest ih =>
    intro st h
    exact ih _ (enqueue_queueSteps h)

theorem foldl_headEntry (cfg : MachineConfig) (moves : List (Vec3 × ℝ)) :
    ∀ st : PState, HeadEntryLE st.queue →
      HeadEntryLE ((moves.foldl (fun s mv => enqueue cfg s mv.1 mv.2) st).queue) := by
  induction moves with
  | nil => intro st h; exact h
  | cons mv rest ih =>
    intro st h
    exact ih _ (enqueue_headEntry h)

/-- Members of the halted, backward-swept buffer still have non-zero
defining-axis step counts. -/
theorem halted_defSteps {q : List QueuedMove} (h : QueueSteps q) :
    ∀ m ∈ backwardPass (setTailExitZero q), defSteps m ≠ 0 := by
  intro m hm
  obtain ⟨m1, hm1, hs1⟩ := backwardPass_mem hm
  obtain ⟨m2, hm2, hs2⟩ := setTailExitZero_mem hm1
  rw [defSteps_congr hs1, defSteps_congr hs2]
  exact ne_of_gt (h m2 hm2)

/-! ## Claim theorems: quantified invariants -/

/-- Claim C1 (spec P1, §4.4/§4.5 contract; `planner_test.cc:153-156`): for
every sequence of `Enqueue` calls followed by `BringPathToHalt`, every two
consecutive emitted segments satisfy `s_i.v1 = s_{i+1}.v0` exactly. -/
theorem emitted_join_continuity (cfg : MachineConfig) (moves : List (Vec3 × ℝ)) :
    List.Chain' (fun s t => s.v1 = t.v0) (runPlanner cfg moves) := by
  unfold runPlanner bringPathToHalt
  have hsteps : QueueSteps ((moves.foldl (fun s mv => enqueue cfg s mv.1 mv.2) initState).queue) :=
    foldl_queueSteps cfg moves initState (fun m hm => by simp [initState] at hm)
  exact flatMap_shape_chain (halted_defSteps hsteps) (backwardPass_chain _)

/-- Claim C2 (spec P2; `planner_test.cc:146-148`): whenever the run emits at
least one segment, the first emitted segment starts at step rate zero and the
last emitted segment ends at step rate zero. -/
theorem halt_terminal_speeds (cfg : MachineConfig) (moves : List (Vec3 × ℝ))
    (hne : runPlanner cfg moves ≠ []) :
    ((runPlanner cfg moves).head hne).v0 = 0 ∧
      ((runPlanner cfg moves).getLast hne).v1 = 0 := by
  have hsteps : QueueSteps ((moves.foldl (fun s mv => enqueue cfg s mv.1 mv.2) initState).queue) :=
    foldl_queueSteps cfg moves initState (fun m hm => by simp [initState] at hm)
  have hhead : HeadEntryLE ((moves.foldl (fun s mv => enqueue cfg s mv.1 mv.2) initState).queue) :=
    foldl_headEntry cfg moves initState (fun m hm => by simp [initState] at hm)
  set q := (moves.foldl (fun s mv => enqueue cfg s mv.1 mv.2) initState).queue with hq
  set L := backwardPass (setTailExitZero q) with hL
  have hrun : runPlanner cfg moves = L.flatMap shape := rfl
  have hd : ∀ m ∈ L, defSteps m ≠ 0 := halted_defSteps hsteps
  have hLne : L ≠ [] := by
    intro h0
    apply hne
    rw [hrun, h0]
    rfl
  have hqne : q ≠ [] := by
    intro h0
    apply hLne
    rw [hL, h0]
    rfl
  constructor
  · -- first segment: v0 = sqrt(head entry) with head entry ≤ 0
    obtain ⟨mh, hmh⟩ := Option.ne_none_iff_exists'.mp
      (fun h0 => hLne (List.head?_eq_none_iff.mp h0))
    obtain ⟨m0, hm0, hle0⟩ := backwardPass_head_entry hmh
    have hstz : HeadEntryLE (setTailExitZero q) := setTailExitZero_head_entry hhead
    have hent : mh.entrySq ≤ 0 := le_trans hle0 (hstz m0 hm0)
    have h1 : (runPlanner cfg moves).head? = (shape mh ++ (L.tail).flatMap shape).head? := by
      rw [hrun]
      exact flatMap_shape_head hmh
    have h2 : (shape mh ++ (L.tail).flatMap shape).head? = (shape mh).head? :=
      List.head?_append_of_ne_nil _ (shape_ne_nil (hd mh (List.mem_of_mem_head? hmh)))
    have h3 : (runPlanner cfg moves).head? = Option.some ((runPlanner cfg moves).head hne) :=
      List.head?_eq_head hne
    have h4 : (shape mh).head? = Option.some ((runPlanner cfg moves).head hne) := by
      rw [← h2, ← h1, h3]
    rw [shape_head_v0 h4]
    exact Real.sqrt_eq_zero'.mpr hent
  · -- last segment: v1 = sqrt(tail exit) = sqrt 0
    obtain ⟨mt0, hmt0, hz0⟩ := setTailExitZero_getLast_exit hqne
    obtain ⟨mt, hmt⟩ := Option.ne_none_iff_exists'.mp
      (fun h0 => hLne (List.getLast?_eq_none_iff.mp h0))
    have hz : mt.exitSq = 0 := by
      have := backwardPass_getLast_exit (setTailExitZero q)
      rw [← hL, hmt, hmt0] at this
      simp only [Option.map_some'] at this
      rw [Option.some_inj] at this
      rw [this, hz0]
    have h1 : (runPlanner cfg moves).getLast? = (shape mt).getLast? := by
      rw [hrun]
      exact flatMap_shape_getLast hd hmt
    have h3 : (runPlanner cfg moves).getLast? =
        Option.some ((runPlanner cfg moves).getLast hne) :=
      List.getLast?_eq_getLast _ hne
    have h4 : (shape mt).getLast? = Option.some ((runPlanner cfg moves).getLast hne) := by
      rw [← h1, h3]
    rw [shape_last_v1 h4, hz]
    exact Real.sqrt_zero

/-! ## Plumbing for concrete scenario evaluation -/

theorem convertMove_entrySq (cfg : MachineConfig) (d : Vec3) (f : ℝ) :
    (convertMove cfg d f).entrySq = 0 := rfl

theorem convertMove_exitSq (cfg : MachineConfig) (d : Vec3) (f : ℝ) :
    (convertMove cfg d f).exitSq = 0 := rfl

theorem eta_entry {m : QueuedMove} {e : ℝ} (h : m.entrySq = e) :
    ({ m with entrySq := e } : QueuedMove) = m := by
  cases m
  simp_all

theorem eta_exit {m : QueuedMove} {e : ℝ} (h : m.exitSq = e) :
    ({ m with exitSq := e } : QueuedMove) = m := by
  cases m
  simp_all

theorem defSteps_nonneg (m : QueuedMove) : 0 ≤ defSteps m := abs_nonneg _

theorem enqueue_empty_queue (cfg : MachineConfig) (p target d : Vec3) (f : ℝ)
    (m : QueuedMove)
    (hd : (⟨target.x - p.x, target.y - p.y, target.z - p.z⟩ : Vec3) = d)
    (hm : convertMove cfg d f = m)
    (hnm : ¬(m.deltaSteps.x = 0 ∧ m.deltaSteps.y = 0 ∧ m.deltaSteps.z = 0))
    (hacc : 0 ≤ m.accel * defSteps m) :
    enqueue cfg ⟨p, []⟩ target f = ⟨target, [m]⟩ := by
  have hsteps : stepsOfDelta cfg d = m.deltaSteps := by
    rw [← hm]
    rfl
  simp only [enqueue, hd, hsteps, hm, List.getLast?_nil, List.nil_append]
  rw [if_neg hnm]
  have h1 : ({ m with entrySq := 0 } : QueuedMove) = m :=
    eta_entry (by rw [← hm]; rfl)
  rw [h1, backwardPass_cons_nil m backwardPass_nil]
  have h2 : min m.entrySq (entryCapSq m m.exitSq) = m.entrySq := by
    rw [show m.entrySq = 0 from by rw [← hm]; rfl,
      show m.exitSq = 0 from by rw [← hm]; rfl]
    unfold entryCapSq
    apply min_eq_left
    nlinarith [hacc]
  rw [h2, eta_entry rfl]

theorem bringPathToHalt_single (t : Vec3) (m : QueuedMove) (he : m.entrySq = 0)
    (hx : m.exitSq = 0) (hacc : 0 ≤ m.accel * defSteps m) :
    bringPathToHalt ⟨t, [m]⟩ = shape m := by
  unfold bringPathToHalt
  have h0 : setTailExitZero [m] = [m] := by
    simp only [setTailExitZero]
    rw [eta_exit hx]
  rw [h0, backwardPass_cons_nil m backwardPass_nil]
  have h2 : min m.entrySq (entryCapSq m m.exitSq) = m.entrySq := by
    rw [he, hx]
    unfold entryCapSq
    apply min_eq_left
    nlinarith [hacc]
  rw [h2, eta_entry rfl]
  simp

/-- Evaluation workhorse: a single-move scenario emits exactly the shape of
the converted move, entering and exiting at speed zero. -/
theorem runPlanner_single (cfg : MachineConfig) (target d : Vec3) (f : ℝ)
    (m : QueuedMove)
    (hd : (⟨target.x - 0, target.y - 0, target.z - 0⟩ : Vec3) = d)
    (hm : convertMove cfg d f = m)
    (hnm : ¬(m.deltaSteps.x = 0 ∧ m.deltaSteps.y = 0 ∧ m.deltaSteps.z = 0))
    (hacc : 0 ≤ m.accel * defSteps m) :
    runPlanner cfg [(target, f)] = shape m := by
  unfold runPlanner
  simp only [List.foldl_cons, List.foldl_nil]
  have hinit : initState = (⟨⟨0, 0, 0⟩, []⟩ : PState) := rfl
  rw [hinit, enqueue_empty_queue cfg ⟨0, 0, 0⟩ target d f m hd hm hnm hacc]
  exact bringPathToHalt_single target m (by rw [← hm]; rfl) (by rw [← hm]; rfl) hacc

/-! ## Concrete scenario evaluations (`planner_test.cc`) -/

theorem round_eq_int {x : ℝ} {n : ℤ} (h : x = (n : ℝ)) : round x = n := by
  rw [h, round_intCast]

theorem steps_xy (th : ℝ) :
    stepsOfDelta (testConfig th) ⟨100, 100, 0⟩ = ⟨100000, 800000, 0⟩ := by
  simp only [stepsOfDelta, testConfig, IVec3.mk.injEq]
  refine ⟨?_, ?_, ?_⟩ <;> exact round_eq_int (by norm_num)

theorem dax_xy : definingAxis ⟨100000, 800000, 0⟩ = Axis.Y := by decide

theorem eta_exit_entry {m : QueuedMove} {x e : ℝ} (h : e = m.entrySq) :
    ({ m with exitSq := x, entrySq := e } : QueuedMove) = { m with exitSq := x } := by
  cases m
  simp_all

/-- Evaluation workhorse: a two-move scenario with junction speed (squared)
`J` emits the shape of the first move exiting at `E`, then the shape of the
second move entering at `E`, where `E` is `J` capped by the second move's
deceleration reachability (§4.4). -/
theorem runPlanner_pair (cfg : MachineConfig) (t1 t2 d1 d2 : Vec3) (f1 f2 : ℝ)
    (m1 m2 : QueuedMove) (J E : ℝ)
    (hd1 : (⟨t1.x - 0, t1.y - 0, t1.z - 0⟩ : Vec3) = d1)
    (hm1 : convertMove cfg d1 f1 = m1)
    (hd2 : (⟨t2.x - t1.x, t2.y - t1.y, t2.z - t1.z⟩ : Vec3) = d2)
    (hm2 : convertMove cfg d2 f2 = m2)
    (hnm1 : ¬(m1.deltaSteps.x = 0 ∧ m1.deltaSteps.y = 0 ∧ m1.deltaSteps.z = 0))
    (hnm2 : ¬(m2.deltaSteps.x = 0 ∧ m2.deltaSteps.y = 0 ∧ m2.deltaSteps.z = 0))
    (hJ : junctionSq cfg m1 m2 = J) (hJ0 : 0 ≤ J)
    (ha1 : 0 ≤ m1.accel) (ha2 : 0 ≤ m2.accel)
    (hE : min J (2 * m2.accel * defSteps m2) = E) :
    runPlanner cfg [(t1, f1), (t2, f2)] =
      shape { m1 with exitSq := E } ++ shape { m2 with entrySq := E } := by
  have hN1 := defSteps_nonneg m1
  have hN2 := defSteps_nonneg m2
  have hE0 : 0 ≤ E := by
    rw [← hE]
    exact le_min hJ0 (by positivity)
  have hEcap : E ≤ 2 * m2.accel * defSteps m2 := by
    rw [← hE]
    exact min_le_right _ _
  have hsteps2 : stepsOfDelta cfg d2 = m2.deltaSteps := by
    rw [← hm2]
    rfl
  unfold runPlanner
  simp only [List.foldl_cons, List.foldl_nil]
  have hinit : initState = (⟨⟨0, 0, 0⟩, []⟩ : PState) := rfl
  rw [hinit, enqueue_empty_queue cfg ⟨0, 0, 0⟩ t1 d1 f1 m1 hd1 hm1 hnm1
    (mul_nonneg ha1 hN1)]
  obtain ⟨ds2, dm2, l2, dax2, n2, a2, e2f, x2f⟩ := m2
  have he2f : e2f = 0 := by
    have := congrArg QueuedMove.entrySq hm2
    simpa using this.symm
  have hx2f : x2f = 0 := by
    have := congrArg QueuedMove.exitSq hm2
    simpa using this.symm
  subst he2f
  subst hx2f
  obtain ⟨ds1, dm1, l1, dax1, n1, a1v, e1f, x1f⟩ := m1
  have he1f : e1f = 0 := by
    have := congrArg QueuedMove.entrySq hm1
    simpa using this.symm
  have hx1f : x1f = 0 := by
    have := congrArg QueuedMove.exitSq hm1
    simpa using this.symm
  subst he1f
  subst hx1f
  simp only [QueuedMove.accel] at ha1 ha2
  simp only [defSteps, QueuedMove.deltaSteps, QueuedMove.defAxis] at hN1 hN2 hEcap hE
  -- second Enqueue
  simp only [enqueue, hd2, hsteps2, QueuedMove.deltaSteps]
  rw [if_neg hnm2]
  simp only [List.getLast?_singleton, hm2, hJ]
  -- backward pass over the two-element buffer
  have hbp2 : backwardPass [(⟨ds2, dm2, l2, dax2, n2, a2, J, 0⟩ : QueuedMove)] =
      [(⟨ds2, dm2, l2, dax2, n2, a2, E, 0⟩ : QueuedMove)] := by
    rw [backwardPass_cons_nil _ backwardPass_nil]
    simp only [entryCapSq, defSteps, QueuedMove.exitSq, QueuedMove.accel,
      QueuedMove.deltaSteps, QueuedMove.defAxis, zero_add]
    rw [hE]
  rw [List.cons_append, List.nil_append,
    backwardPass_cons_cons _ _ hbp2]
  have hent1 : min (⟨ds1, dm1, l1, dax1, n1, a1v, 0, 0⟩ : QueuedMove).entrySq
      (entryCapSq ⟨ds1, dm1, l1, dax1, n1, a1v, 0, 0⟩
        (⟨ds2, dm2, l2, dax2, n2, a2, E, 0⟩ : QueuedMove).entrySq) = 0 := by
    simp only [entryCapSq, defSteps, QueuedMove.entrySq, QueuedMove.accel,
      QueuedMove.deltaSteps, QueuedMove.defAxis]
    apply min_eq_left
    positivity
  simp only [QueuedMove.entrySq, entryCapSq, defSteps, QueuedMove.accel,
    QueuedMove.deltaSteps, QueuedMove.defAxis] at hent1 ⊢
  rw [hent1]
  -- halt: pin the tail, re-run the backward pass, shape
  unfold bringPathToHalt
  simp only [setTailExitZero]
  have hbp2b : backwardPass [(⟨ds2, dm2, l2, dax2, n2, a2, E, 0⟩ : QueuedMove)] =
      [(⟨ds2, dm2, l2, dax2, n2, a2, E, 0⟩ : QueuedMove)] := by
    rw [backwardPass_cons_nil _ backwardPass_nil]
    simp only [entryCapSq, defSteps, QueuedMove.exitSq, QueuedMove.accel,
      QueuedMove.deltaSteps, QueuedMove.defAxis, QueuedMove.entrySq, zero_add]
    rw [min_eq_left hEcap]
  rw [backwardPass_cons_cons _ _ hbp2b]
  simp only [QueuedMove.entrySq, entryCapSq, defSteps, QueuedMove.accel,
    QueuedMove.deltaSteps, QueuedMove.defAxis]
  rw [hent1]
  simp [List.flatMap]

theorem convert_c5 : convertMove (testConfig 0) ⟨100, 100, 0⟩ 1000 =
    ⟨⟨100000, 800000, 0⟩, ⟨100, 100, 0⟩, 20000, Axis.Y, 32000000000000, 800000, 0, 0⟩ := by
  simp only [convertMove, steps_xy, dax_xy, QueuedMove.mk.injEq, true_and, and_true]
  refine ⟨?_, ?_, ?_⟩
  · norm_num [normSq]
  · norm_num [normSq, feedRatioSq, testConfig, IVec3.get, min_def]
  · norm_num [accelPerMm, accelCandidate, optMin, testConfig, IVec3.get,
      abs_of_nonneg (le_of_lt (by norm_num : (0:ℝ) < 100)), min_def]

theorem shape_c5 :
    shape ⟨⟨100000, 800000, 0⟩, ⟨100, 100, 0⟩, 20000, Axis.Y, 32000000000000,
        800000, 0, 0⟩ =
      [⟨⟨50000, 400000, 0⟩, 0, Real.sqrt 640000000000⟩,
       ⟨⟨50000, 400000, 0⟩, Real.sqrt 640000000000, 0⟩] := by
  have hN : defSteps (⟨⟨100000, 800000, 0⟩, ⟨100, 100, 0⟩, 20000, Axis.Y,
      32000000000000, 800000, 0, 0⟩ : QueuedMove) = 800000 := by
    norm_num [defSteps, IVec3.get]
  simp only [shape, hN]
  split_ifs with h1 h2 h3 h4
  · norm_num at h1
  · norm_num at h2
  · norm_num at h2
  · norm_num [scaledSteps, stepsSub, round_eq, Real.sqrt_zero,
      LinearSegmentSteps.mk.injEq, IVec3.mk.injEq]
  · norm_num [max_def] at h4

/-- Claim C5 (`planner_test.cc:159-172`, spec §8 scenario 1): a single
`Enqueue((100,100,0), 1000)` followed by `BringPathToHalt` emits exactly two
segments — accelerate then decelerate, the nominal speed is never reached —
with `v0 = 0` on the first, `v1 = 0` on the last, and matching speeds at the
join. -/
theorem simple_move_never_reaching_full_speed :
    ∃ s0 s1, runPlanner (testConfig 0) [(⟨100, 100, 0⟩, 1000)] = [s0, s1] ∧
      s0.v0 = 0 ∧ s1.v1 = 0 ∧ s0.v1 = s1.v0 := by
  have hrun : runPlanner (testConfig 0) [(⟨100, 100, 0⟩, 1000)] =
      shape ⟨⟨100000, 800000, 0⟩, ⟨100, 100, 0⟩, 20000, Axis.Y, 32000000000000,
        800000, 0, 0⟩ :=
    runPlanner_single (testConfig 0) ⟨100, 100, 0⟩ ⟨100, 100, 0⟩ 1000 _
      (by norm_num) convert_c5 (by norm_num) (by norm_num [defSteps, IVec3.get])
  rw [hrun, shape_c5]
  exact ⟨_, _, rfl, rfl, rfl, rfl⟩

theorem convert_c6 : convertMove (testConfig 0) ⟨100, 100, 0⟩ 10 =
    ⟨⟨100000, 800000, 0⟩, ⟨100, 100, 0⟩, 20000, Axis.Y, 3200000000, 800000, 0, 0⟩ := by
  simp only [convertMove, steps_xy, dax_xy, QueuedMove.mk.injEq, true_and, and_true]
  refine ⟨?_, ?_, ?_⟩
  · norm_num [normSq]
  · norm_num [normSq, feedRatioSq, testConfig, IVec3.get, min_def]
  · norm_num [accelPerMm, accelCandidate, optMin, testConfig, IVec3.get,
      abs_of_nonneg (le_of_lt (by norm_num : (0:ℝ) < 100)), min_def]

theorem shape_c6 :
    shape ⟨⟨100000, 800000, 0⟩, ⟨100, 100, 0⟩, 20000, Axis.Y, 3200000000,
        800000, 0, 0⟩ =
      [⟨⟨250, 2000, 0⟩, 0, Real.sqrt 3200000000⟩,
       ⟨⟨99500, 796000, 0⟩, Real.sqrt 3200000000, Real.sqrt 3200000000⟩,
       ⟨⟨250, 2000, 0⟩, Real.sqrt 3200000000, 0⟩] := by
  have hN : defSteps (⟨⟨100000, 800000, 0⟩, ⟨100, 100, 0⟩, 20000, Axis.Y,
      3200000000, 800000, 0, 0⟩ : QueuedMove) = 800000 := by
    norm_num [defSteps, IVec3.get]
  simp only [shape, hN]
  split_ifs with h1 h2 h3
  · norm_num at h1
  · norm_num [scaledSteps, stepsSub, round_eq, Real.sqrt_zero,
      LinearSegmentSteps.mk.injEq, IVec3.mk.injEq]
  · norm_num at h3
  · norm_num at h2
  · norm_num at h2

/-- Claim C6 (`planner_test.cc:174-186`, spec §8 scenario 2): a single
`Enqueue((100,100,0), 10)` emits exactly three segments (accelerate, cruise,
decelerate) and the middle segment cruises: `v0 = v1`. -/
theorem simple_move_reaches_full_speed :
    ∃ s0 s1 s2, runPlanner (testConfig 0) [(⟨100, 100, 0⟩, 10)] = [s0, s1, s2] ∧
      s1.v0 = s1.v1 := by
  have hrun : runPlanner (testConfig 0) [(⟨100, 100, 0⟩, 10)] =
      shape ⟨⟨100000, 800000, 0⟩, ⟨100, 100, 0⟩, 20000, Axis.Y, 3200000000,
        800000, 0, 0⟩ :=
    runPlanner_single (testConfig 0) ⟨100, 100, 0⟩ ⟨100, 100, 0⟩ 10 _
      (by norm_num) convert_c6 (by norm_num) (by norm_num [defSteps, IVec3.get])
  rw [hrun, shape_c6]
  exact ⟨_, _, _, rfl, rfl⟩

theorem steps_x100 (th : ℝ) :
    stepsOfDelta (testConfig th) ⟨100, 0, 0⟩ = ⟨100000, 0, 0⟩ := by
  simp only [stepsOfDelta, testConfig, IVec3.mk.injEq]
  refine ⟨?_, ?_, ?_⟩ <;> exact round_eq_int (by norm_num)

theorem steps_y100 (th : ℝ) :
    stepsOfDelta (testConfig th) ⟨0, 100, 0⟩ = ⟨0, 800000, 0⟩ := by
  simp only [stepsOfDelta, testConfig, IVec3.mk.injEq]
  refine ⟨?_, ?_, ?_⟩ <;> exact round_eq_int (by norm_num)

theorem dax_x : definingAxis ⟨100000, 0, 0⟩ = Axis.X := by decide

theorem dax_y : definingAxis ⟨0, 800000, 0⟩ = Axis.Y := by decide

theorem convert_c7x : convertMove (testConfig 0) ⟨100, 0, 0⟩ 10 =
    ⟨⟨100000, 0, 0⟩, ⟨100, 0, 0⟩, 10000, Axis.X, 100000000, 100000, 0, 0⟩ := by
  simp only [convertMove, steps_x100, dax_x, QueuedMove.mk.injEq, true_and, and_true]
  refine ⟨?_, ?_, ?_⟩
  · norm_num [normSq]
  · norm_num [normSq, feedRatioSq, testConfig, IVec3.get, min_def]
  · norm_num [accelPerMm, accelCandidate, optMin, testConfig, IVec3.get,
      abs_of_nonneg (le_of_lt (by norm_num : (0:ℝ) < 100)), min_def]

theorem convert_c7y : convertMove (testConfig 0) ⟨0, 100, 0⟩ 10 =
    ⟨⟨0, 800000, 0⟩, ⟨0, 100, 0⟩, 10000, Axis.Y, 6400000000, 800000, 0, 0⟩ := by
  simp only [convertMove, steps_y100, dax_y, QueuedMove.mk.injEq, true_and, and_true]
  refine ⟨?_, ?_, ?_⟩
  · norm_num [normSq]
  · norm_num [normSq, feedRatioSq, testConfig, IVec3.get, min_def]
  · norm_num [accelPerMm, accelCandidate, optMin, testConfig, IVec3.get,
      abs_of_nonneg (le_of_lt (by norm_num : (0:ℝ) < 100)), min_def]

theorem shape_c7x :
    shape ⟨⟨100000, 0, 0⟩, ⟨100, 0, 0⟩, 10000, Axis.X, 100000000, 100000, 0, 0⟩ =
      [⟨⟨500, 0, 0⟩, 0, Real.sqrt 100000000⟩,
       ⟨⟨99000, 0, 0⟩, Real.sqrt 100000000, Real.sqrt 100000000⟩,
       ⟨⟨500, 0, 0⟩, Real.sqrt 100000000, 0⟩] := by
  have hN : defSteps (⟨⟨100000, 0, 0⟩, ⟨100, 0, 0⟩, 10000, Axis.X, 100000000,
      100000, 0, 0⟩ : QueuedMove) = 100000 := by
    norm_num [defSteps, IVec3.get]
  simp only [shape, hN]
  split_ifs with h1 h2 h3
  · norm_num at h1
  · norm_num [scaledSteps, stepsSub, round_eq, Real.sqrt_zero,
      LinearSegmentSteps.mk.injEq, IVec3.mk.injEq]
  · norm_num at h3
  · norm_num at h2
  · norm_num at h2

theorem shape_c7y :
    shape ⟨⟨0, 800000, 0⟩, ⟨0, 100, 0⟩, 10000, Axis.Y, 6400000000, 800000, 0, 0⟩ =
      [⟨⟨0, 4000, 0⟩, 0, Real.sqrt 6400000000⟩,
       ⟨⟨0, 792000, 0⟩, Real.sqrt 6400000000, Real.sqrt 6400000000⟩,
       ⟨⟨0, 4000, 0⟩, Real.sqrt 6400000000, 0⟩] := by
  have hN : defSteps (⟨⟨0, 800000, 0⟩, ⟨0, 100, 0⟩, 10000, Axis.Y, 6400000000,
      800000, 0, 0⟩ : QueuedMove) = 800000 := by
    norm_num [defSteps, IVec3.get]
  simp only [shape, hN]
  split_ifs with h1 h2 h3
  · norm_num at h1
  · norm_num [scaledSteps, stepsSub, round_eq, Real.sqrt_zero,
      LinearSegmentSteps.mk.injEq, IVec3.mk.injEq]
  · norm_num at h3
  · norm_num at h2
  · norm_num at h2

/-- Claim C7 (`planner_test.cc:188-214`, spec §8 scenarios 3-4): for a
single-axis 100-mm move at 10 mm/s the cruise segment's step rate is the
moved axis's steps/mm times the feedrate — `1000·10` steps/s for an X-only
move and `8000·10` steps/s for a Y-only move. -/
theorem defining_axis_speed :
    ((runPlanner (testConfig 0) [(⟨100, 0, 0⟩, 10)]).map
        LinearSegmentSteps.v0)[1]? = Option.some (1000 * 10) ∧
    ((runPlanner (testConfig 0) [(⟨0, 100, 0⟩, 10)]).map
        LinearSegmentSteps.v0)[1]? = Option.some (8000 * 10) := by
  have hrunx : runPlanner (testConfig 0) [(⟨100, 0, 0⟩, 10)] =
      shape ⟨⟨100000, 0, 0⟩, ⟨100, 0, 0⟩, 10000, Axis.X, 100000000, 100000, 0, 0⟩ :=
    runPlanner_single (testConfig 0) ⟨100, 0, 0⟩ ⟨100, 0, 0⟩ 10 _
      (by norm_num) convert_c7x (by norm_num) (by norm_num [defSteps, IVec3.get])
  have hruny : runPlanner (testConfig 0) [(⟨0, 100, 0⟩, 10)] =
      shape ⟨⟨0, 800000, 0⟩, ⟨0, 100, 0⟩, 10000, Axis.Y, 6400000000, 800000, 0, 0⟩ :=
    runPlanner_single (testConfig 0) ⟨0, 100, 0⟩ ⟨0, 100, 0⟩ 10 _
      (by norm_num) convert_c7y (by norm_num) (by norm_num [defSteps, IVec3.get])
  rw [hrunx, hruny, shape_c7x, shape_c7y]
  constructor
  · show Option.some (Real.sqrt 100000000) = _
    rw [show (100000000 : ℝ) = 10000 ^ 2 by norm_num, Real.sqrt_sq (by norm_num)]
    norm_num
  · show Option.some (Real.sqrt 6400000000) = _
    rw [show (6400000000 : ℝ) = 80000 ^ 2 by norm_num, Real.sqrt_sq (by norm_num)]
    norm_num

theorem convert_c3a : convertMove (testConfig 5) ⟨100, 0, 0⟩ 3000 =
    ⟨⟨100000, 0, 0⟩, ⟨100, 0, 0⟩, 10000, Axis.X, 9000000000000, 100000, 0, 0⟩ := by
  simp only [convertMove, steps_x100, dax_x, QueuedMove.mk.injEq, true_and, and_true]
  refine ⟨?_, ?_, ?_⟩
  · norm_num [normSq]
  · norm_num [normSq, feedRatioSq, testConfig, IVec3.get, min_def]
  · norm_num [accelPerMm, accelCandidate, optMin, testConfig, IVec3.get,
      abs_of_nonneg (le_of_lt (by norm_num : (0:ℝ) < 100)), min_def]

theorem convert_c3b : convertMove (testConfig 5) ⟨0, 100, 0⟩ 3000 =
    ⟨⟨0, 800000, 0⟩, ⟨0, 100, 0⟩, 10000, Axis.Y, 576000000000000, 800000, 0, 0⟩ := by
  simp only [convertMove, steps_y100, dax_y, QueuedMove.mk.injEq, true_and, and_true]
  refine ⟨?_, ?_, ?_⟩
  · norm_num [normSq]
  · norm_num [normSq, feedRatioSq, testConfig, IVec3.get, min_def]
  · norm_num [accelPerMm, accelCandidate, optMin, testConfig, IVec3.get,
      abs_of_nonneg (le_of_lt (by norm_num : (0:ℝ) < 100)), min_def]

/-- At the 90° corner of the test the junction speed is zero: the angular
deviation `arccos 0 = π/2` exceeds the 5° threshold. -/
theorem junction_c3 :
    junctionSq (testConfig 5)
      ⟨⟨100000, 0, 0⟩, ⟨100, 0, 0⟩, 10000, Axis.X, 9000000000000, 100000, 0, 0⟩
      ⟨⟨0, 800000, 0⟩, ⟨0, 100, 0⟩, 10000, Axis.Y, 576000000000000, 800000, 0, 0⟩ = 0 := by
  simp only [junctionSq]
  split_ifs with h1 h2
  · norm_num at h1
  · exfalso
    norm_num [min_def, max_def, Real.arccos_zero, testConfig] at h2
    linarith [Real.pi_pos]
  · rfl

theorem shape_c3a :
    shape ⟨⟨100000, 0, 0⟩, ⟨100, 0, 0⟩, 10000, Axis.X, 9000000000000, 100000, 0, 0⟩ =
      [⟨⟨50000, 0, 0⟩, 0, Real.sqrt 10000000000⟩,
       ⟨⟨50000, 0, 0⟩, Real.sqrt 10000000000, 0⟩] := by
  have hN : defSteps (⟨⟨100000, 0, 0⟩, ⟨100, 0, 0⟩, 10000, Axis.X, 9000000000000,
      100000, 0, 0⟩ : QueuedMove) = 100000 := by
    norm_num [defSteps, IVec3.get]
  simp only [shape, hN]
  split_ifs with h1 h2 h3 h4
  · norm_num at h1
  · norm_num at h2
  · norm_num at h2
  · norm_num [scaledSteps, stepsSub, round_eq, Real.sqrt_zero,
      LinearSegmentSteps.mk.injEq, IVec3.mk.injEq]
  · norm_num [max_def] at h4

theorem shape_c3b :
    shape ⟨⟨0, 800000, 0⟩, ⟨0, 100, 0⟩, 10000, Axis.Y, 576000000000000, 800000, 0, 0⟩ =
      [⟨⟨0, 400000, 0⟩, 0, Real.sqrt 640000000000⟩,
       ⟨⟨0, 400000, 0⟩, Real.sqrt 640000000000, 0⟩] := by
  have hN : defSteps (⟨⟨0, 800000, 0⟩, ⟨0, 100, 0⟩, 10000, Axis.Y, 576000000000000,
      800000, 0, 0⟩ : QueuedMove) = 800000 := by
    norm_num [defSteps, IVec3.get]
  simp only [shape, hN]
  split_ifs with h1 h2 h3 h4
  · norm_num at h1
  · norm_num at h2
  · norm_num at h2
  · norm_num [scaledSteps, stepsSub, round_eq, Real.sqrt_zero,
      LinearSegmentSteps.mk.injEq, IVec3.mk.injEq]
  · norm_num [max_def] at h4

/-- Claim C3 (`planner_test.cc:280-292`, spec §8 scenario 6): two 100-mm
moves at 90° with threshold 5° and feedrate 3000 emit exactly four segments,
decelerating fully to a stop in the elbow: `segments[1].v1 = 0` and
`segments[2].v0 = 0`. -/
theorem corner_move_90_degrees :
    ∃ s0 s1 s2 s3,
      runPlanner (testConfig 5) [(⟨100, 0, 0⟩, 3000), (⟨100, 100, 0⟩, 3000)] =
        [s0, s1, s2, s3] ∧ s1.v1 = 0 ∧ s2.v0 = 0 := by
  have hpair := runPlanner_pair (testConfig 5) ⟨100, 0, 0⟩ ⟨100, 100, 0⟩
    ⟨100, 0, 0⟩ ⟨0, 100, 0⟩ 3000 3000 _ _ 0 0
    (by norm_num) convert_c3a (by norm_num) convert_c3b
    (by norm_num) (by norm_num) junction_c3 le_rfl
    (by norm_num) (by norm_num)
    (by norm_num [defSteps, IVec3.get, min_def])
  have hred1 : ({ (⟨⟨100000, 0, 0⟩, ⟨100, 0, 0⟩, 10000, Axis.X, 9000000000000,
      100000, 0, 0⟩ : QueuedMove) with exitSq := (0:ℝ) }) =
      ⟨⟨100000, 0, 0⟩, ⟨100, 0, 0⟩, 10000, Axis.X, 9000000000000, 100000, 0, 0⟩ := rfl
  have hred2 : ({ (⟨⟨0, 800000, 0⟩, ⟨0, 100, 0⟩, 10000, Axis.Y, 576000000000000,
      800000, 0, 0⟩ : QueuedMove) with entrySq := (0:ℝ) }) =
      ⟨⟨0, 800000, 0⟩, ⟨0, 100, 0⟩, 10000, Axis.Y, 576000000000000, 800000, 0, 0⟩ := rfl
  rw [hred1, hred2, shape_c3a, shape_c3b] at hpair
  rw [hpair]
  exact ⟨_, _, _, _, rfl, rfl, rfl⟩

/-! ## Error handling claims -/

/-- Claim C8 (spec §4.1, §7 `NoMotion`): an `Enqueue` whose per-axis step
deltas are all zero is silently absorbed — the planner state (move buffer
and current logical position) is unchanged, so no segment is ever emitted
for it and no error is surfaced (the operation returns normally). -/
theorem enqueue_no_motion (cfg : MachineConfig) (st : PState) (target : Vec3)
    (f : ℝ)
    (h : (stepsOfDelta cfg ⟨target.x - st.pos.x, target.y - st.pos.y,
            target.z - st.pos.z⟩).x = 0 ∧
         (stepsOfDelta cfg ⟨target.x - st.pos.x, target.y - st.pos.y,
            target.z - st.pos.z⟩).y = 0 ∧
         (stepsOfDelta cfg ⟨target.x - st.pos.x, target.y - st.pos.y,
            target.z - st.pos.z⟩).z = 0) :
    enqueue cfg st target f = st := by
  simp only [enqueue]
  rw [if_pos h]

theorem enqueue_no_motion_witness :
    enqueue (testConfig 0) initState ⟨0, 0, 0⟩ 100 = initState :=
  enqueue_no_motion (testConfig 0) initState ⟨0, 0, 0⟩ 100
    (by norm_num [stepsOfDelta, initState, testConfig, round_zero])

/-- Claim C9 (spec §7 `ConfigInvalid`; `gcode-machine-control.h:77-83`,
modelled from the spec since the factory's implementation is not in the
source tree): if any required per-axis parameter is non-positive,
construction fails — the factory returns NULL (`Option.none`) and no planner
instance is created. -/
theorem create_invalid_config (cfg : MachineConfig) (h : ¬cfg.Valid) :
    createMachineControl cfg = Option.none := by
  simp only [createMachineControl]
  rw [if_neg h]

theorem create_invalid_config_witness :
    createMachineControl
      ⟨⟨0, 8000, 64000⟩, ⟨10000, 10000, 10000⟩, ⟨100, 100, 100⟩, 1, 0⟩ =
      Option.none :=
  create_invalid_config _ (by norm_num [MachineConfig.Valid])

theorem halt_terminal_speeds_witness :
    ∃ h : runPlanner (testConfig 0) [(⟨100, 100, 0⟩, 1000)] ≠ [],
      ((runPlanner (testConfig 0) [(⟨100, 100, 0⟩, 1000)]).head h).v0 = 0 ∧
      ((runPlanner (testConfig 0) [(⟨100, 100, 0⟩, 1000)]).getLast h).v1 = 0 := by
  have hrun : runPlanner (testConfig 0) [(⟨100, 100, 0⟩, 1000)] =
      shape ⟨⟨100000, 800000, 0⟩, ⟨100, 100, 0⟩, 20000, Axis.Y, 32000000000000,
        800000, 0, 0⟩ :=
    runPlanner_single (testConfig 0) ⟨100, 100, 0⟩ ⟨100, 100, 0⟩ 1000 _
      (by norm_num) convert_c5 (by norm_num) (by norm_num [defSteps, IVec3.get])
  have hne : runPlanner (testConfig 0) [(⟨100, 100, 0⟩, 1000)] ≠ [] := by
    rw [hrun, shape_c5]
    simp
  exact ⟨hne, halt_terminal_speeds (testConfig 0) [(⟨100, 100, 0⟩, 1000)] hne⟩

/-! ## Shallow-corner sweep: general positivity lemmas -/

theorem convertMove_deltaSteps (cfg : MachineConfig) (dl : Vec3) (f : ℝ) :
    (convertMove cfg dl f).deltaSteps = stepsOfDelta cfg dl := rfl

theorem convertMove_defAxis (cfg : MachineConfig) (dl : Vec3) (f : ℝ) :
    (convertMove cfg dl f).defAxis = definingAxis (stepsOfDelta cfg dl) := rfl

theorem convertMove_lenSq (cfg : MachineConfig) (dl : Vec3) (f : ℝ) :
    (convertMove cfg dl f).lenSq = normSq dl := rfl

theorem convertMove_deltaMm (cfg : MachineConfig) (dl : Vec3) (f : ℝ) :
    (convertMove cfg dl f).deltaMm = dl := rfl

theorem convertMove_defSteps (cfg : MachineConfig) (dl : Vec3) (f : ℝ) :
    defSteps (convertMove cfg dl f) =
      |(((stepsOfDelta cfg dl).get (definingAxis (stepsOfDelta cfg dl)) : ℤ) : ℝ)| := rfl

theorem convertMove_nominalSq_eq (cfg : MachineConfig) (dl : Vec3) (f : ℝ) :
    (convertMove cfg dl f).nominalSq =
      (if normSq dl = 0 then
        (min 1 (min (feedRatioSq cfg.max_feedrate.x cfg.steps_per_mm.x dl.x f (normSq dl))
          (min (feedRatioSq cfg.max_feedrate.y cfg.steps_per_mm.y dl.y f (normSq dl))
            (feedRatioSq cfg.max_feedrate.z cfg.steps_per_mm.z dl.z f (normSq dl)))) *
          f ^ 2 * cfg.speed_factor ^ 2) *
          (cfg.steps_per_mm.get (definingAxis (stepsOfDelta cfg dl))) ^ 2
      else
        (min 1 (min (feedRatioSq cfg.max_feedrate.x cfg.steps_per_mm.x dl.x f (normSq dl))
          (min (feedRatioSq cfg.max_feedrate.y cfg.steps_per_mm.y dl.y f (normSq dl))
            (feedRatioSq cfg.max_feedrate.z cfg.steps_per_mm.z dl.z f (normSq dl)))) *
          f ^ 2 * cfg.speed_factor ^ 2) *
          (((stepsOfDelta cfg dl).get (definingAxis (stepsOfDelta cfg dl)) : ℤ) : ℝ) ^ 2 /
          normSq dl) := rfl

theorem convertMove_accel_eq (cfg : MachineConfig) (dl : Vec3) (f : ℝ) :
    (convertMove cfg dl f).accel =
      ((accelPerMm cfg dl).getD
        (cfg.acceleration.get (definingAxis (stepsOfDelta cfg dl)) *
          cfg.steps_per_mm.get (definingAxis (stepsOfDelta cfg dl)))) *
        |(((stepsOfDelta cfg dl).get (definingAxis (stepsOfDelta cfg dl)) : ℤ) : ℝ)| := rfl

theorem valid_spm_pos {cfg : MachineConfig} (h : cfg.Valid) (a : Axis) :
    0 < cfg.steps_per_mm.get a := by
  cases a
  · exact h.1.1
  · exact h.1.2.1
  · exact h.1.2.2

theorem valid_maxf_pos {cfg : MachineConfig} (h : cfg.Valid) (a : Axis) :
    0 < cfg.max_feedrate.get a := by
  cases a
  · exact h.2.1.1
  · exact h.2.1.2.1
  · exact h.2.1.2.2

theorem valid_acc_pos {cfg : MachineConfig} (h : cfg.Valid) (a : Axis) :
    0 < cfg.acceleration.get a := by
  cases a
  · exact h.2.2.1
  · exact h.2.2.2.1
  · exact h.2.2.2.2

theorem sq_pos_of_ne {d : ℝ} (h : d ≠ 0) : 0 < d ^ 2 :=
  lt_of_le_of_ne (sq_nonneg d) (Ne.symm (pow_ne_zero 2 h))

theorem feedRatioSq_pos {maxf spm d f lenSq : ℝ} (hm : 0 < maxf) (hs : 0 < spm)
    (hf : f ≠ 0) (hl : 0 < lenSq) : 0 < feedRatioSq maxf spm d f lenSq := by
  unfold feedRatioSq
  split_ifs with h
  · norm_num
  · apply div_pos
    · have : 0 < (maxf * spm) ^ 2 := sq_pos_of_ne (by positivity)
      positivity
    · exact mul_pos (mul_pos (sq_pos_of_ne h) (sq_pos_of_ne hf)) (sq_pos_of_ne (ne_of_gt hs))

theorem accelCandidate_pos {acc d y : ℝ} (hacc : 0 < acc)
    (h : accelCandidate acc d = Option.some y) : 0 < y := by
  unfold accelCandidate at h
  split_ifs at h with h0
  rw [Option.some_inj] at h
  subst h
  exact div_pos hacc (abs_pos.mpr h0)

theorem optMin_pos {o1 o2 : Option ℝ} {x : ℝ}
    (h1 : ∀ y, o1 = Option.some y → 0 < y)
    (h2 : ∀ y, o2 = Option.some y → 0 < y)
    (h : optMin o1 o2 = Option.some x) : 0 < x := by
  cases o1 with
  | none =>
    cases o2 with
    | none => simp [optMin] at h
    | some b =>
      simp only [optMin, Option.some_inj] at h
      exact h ▸ h2 b rfl
  | some a =>
    cases o2 with
    | none =>
      simp only [optMin, Option.some_inj] at h
      exact h ▸ h1 a rfl
    | some b =>
      simp only [optMin, Option.some_inj] at h
      rw [← h]
      exact lt_min (h1 a rfl) (h2 b rfl)

theorem convertMove_accel_pos (cfg : MachineConfig) (dl : Vec3) (f : ℝ)
    (hv : cfg.Valid)
    (hsteps : ¬((stepsOfDelta cfg dl).x = 0 ∧ (stepsOfDelta cfg dl).y = 0 ∧
      (stepsOfDelta cfg dl).z = 0)) :
    0 < (convertMove cfg dl f).accel := by
  rw [convertMove_accel_eq]
  have hN : 0 < defSteps (convertMove cfg dl f) :=
    defSteps_pos_of_not_zero _ hsteps _ rfl rfl
  rw [convertMove_defSteps] at hN
  apply mul_pos ?_ hN
  cases hap : accelPerMm cfg dl with
  | none =>
    simp only [Option.getD_none]
    exact mul_pos (valid_acc_pos hv _) (valid_spm_pos hv _)
  | some v =>
    simp only [Option.getD_some]
    refine optMin_pos ?_ ?_ hap
    · intro y hy
      exact accelCandidate_pos hv.2.2.1 hy
    · intro y hy
      refine optMin_pos ?_ ?_ hy
      · intro z hz
        exact accelCandidate_pos hv.2.2.2.1 hz
      · intro z hz
        exact accelCandidate_pos hv.2.2.2.2 hz

theorem convertMove_nominalSq_pos (cfg : MachineConfig) (dl : Vec3) (f : ℝ)
    (hv : cfg.Valid) (hsf : cfg.speed_factor ≠ 0) (hf : f ≠ 0)
    (hlen : 0 < normSq dl)
    (hsteps : ¬((stepsOfDelta cfg dl).x = 0 ∧ (stepsOfDelta cfg dl).y = 0 ∧
      (stepsOfDelta cfg dl).z = 0)) :
    0 < (convertMove cfg dl f).nominalSq := by
  rw [convertMove_nominalSq_eq]
  rw [if_neg (ne_of_gt hlen)]
  have hds : 0 < (((stepsOfDelta cfg dl).get (definingAxis (stepsOfDelta cfg dl)) : ℤ) : ℝ) ^ 2 := by
    have hN : 0 < defSteps (convertMove cfg dl f) :=
      defSteps_pos_of_not_zero _ hsteps _ rfl rfl
    rw [convertMove_defSteps] at hN
    exact sq_pos_of_ne (by intro h0; rw [h0] at hN; simp at hN)
  have hclamp : 0 < min 1
      (min (feedRatioSq cfg.max_feedrate.x cfg.steps_per_mm.x dl.x f (normSq dl))
        (min (feedRatioSq cfg.max_feedrate.y cfg.steps_per_mm.y dl.y f (normSq dl))
          (feedRatioSq cfg.max_feedrate.z cfg.steps_per_mm.z dl.z f (normSq dl)))) := by
    refine lt_min one_pos (lt_min ?_ (lt_min ?_ ?_))
    · exact feedRatioSq_pos hv.2.1.1 hv.1.1 hf hlen
    · exact feedRatioSq_pos hv.2.1.2.1 hv.1.2.1 hf hlen
    · exact feedRatioSq_pos hv.2.1.2.2 hv.1.2.2 hf hlen
  apply div_pos ?_ hlen
  have hf2 : 0 < f ^ 2 := sq_pos_of_ne hf
  have hsf2 : 0 < cfg.speed_factor ^ 2 := sq_pos_of_ne hsf
  positivity

theorem kMinJunctionTime_pos : 0 < kMinJunctionTime := by
  norm_num [kMinJunctionTime]

theorem unitDiffAbs_nonneg (m1 m2 : QueuedMove) (a : Axis) :
    0 ≤ unitDiffAbs m1 m2 a := abs_nonneg _

theorem axisJumpCapSq_pos (cfg : MachineConfig) (m1 m2 : QueuedMove) (a : Axis)
    (hn1 : 0 < m1.nominalSq) (_hn2 : 0 < m2.nominalSq)
    (hacc : 0 < cfg.acceleration.get a)
    (hds : ((m2.deltaSteps.get m2.defAxis : ℤ) : ℝ) ≠ 0)
    (hl2 : 0 < m2.lenSq) : 0 < axisJumpCapSq cfg m1 m2 a := by
  unfold axisJumpCapSq
  split_ifs with h
  · exact lt_max_of_lt_left hn1
  · apply div_pos ?_ hl2
    apply mul_pos ?_ (sq_pos_of_ne hds)
    apply sq_pos_of_ne
    apply ne_of_gt
    apply div_pos (mul_pos hacc kMinJunctionTime_pos)
    exact lt_of_le_of_ne (unitDiffAbs_nonneg m1 m2 a) (Ne.symm h)

/-- A junction classified shallow between two moves with positive nominal
speeds, positive configured accelerations and non-degenerate geometry has a
strictly positive (squared) junction speed. -/
theorem junctionSq_pos_of_shallow (cfg : MachineConfig) (m1 m2 : QueuedMove)
    (hl1 : m1.lenSq ≠ 0) (hl2v : 0 < m2.lenSq)
    (hshallow : Real.arccos (max (-1) (min 1 ((m1.deltaMm.x * m2.deltaMm.x +
        m1.deltaMm.y * m2.deltaMm.y + m1.deltaMm.z * m2.deltaMm.z) /
        (Real.sqrt m1.lenSq * Real.sqrt m2.lenSq)))) ≤
      cfg.threshold_angle * Real.pi / 180)
    (hn1 : 0 < m1.nominalSq) (hn2 : 0 < m2.nominalSq)
    (haccx : 0 < cfg.acceleration.x) (haccy : 0 < cfg.acceleration.y)
    (haccz : 0 < cfg.acceleration.z)
    (hds : ((m2.deltaSteps.get m2.defAxis : ℤ) : ℝ) ≠ 0) :
    0 < junctionSq cfg m1 m2 := by
  simp only [junctionSq]
  rw [if_neg (by push_neg; exact ⟨hl1, ne_of_gt hl2v⟩), if_pos hshallow]
  refine lt_min (lt_min hn1 hn2) (lt_min ?_ (lt_min ?_ ?_))
  · exact axisJumpCapSq_pos cfg m1 m2 Axis.X hn1 hn2 haccx hds hl2v
  · exact axisJumpCapSq_pos cfg m1 m2 Axis.Y hn1 hn2 haccy hds hl2v
  · exact axisJumpCapSq_pos cfg m1 m2 Axis.Z hn1 hn2 haccz hds hl2v

/-- Euclidean length squared of a 100-mm move in any direction. -/
theorem sweep_normSq (x : ℝ) :
    normSq ⟨100 * Real.cos x, 100 * Real.sin x, 0⟩ = 10000 := by
  simp only [normSq]
  have h := Real.sin_sq_add_cos_sq x
  nlinarith [h]

/-- A 100-mm move in any direction has a non-zero step count on X or Y: the
rounded step counts cannot all vanish since `cos² + sin² = 1`. -/
theorem sweep_steps_ne (th x : ℝ) :
    ¬((stepsOfDelta (testConfig th)
        ⟨100 * Real.cos x, 100 * Real.sin x, 0⟩).x = 0 ∧
      (stepsOfDelta (testConfig th)
        ⟨100 * Real.cos x, 100 * Real.sin x, 0⟩).y = 0 ∧
      (stepsOfDelta (testConfig th)
        ⟨100 * Real.cos x, 100 * Real.sin x, 0⟩).z = 0) := by
  rintro ⟨hx, hy, -⟩
  simp only [stepsOfDelta, testConfig] at hx hy
  rw [round_eq_zero_iff, Set.mem_Ico] at hx hy
  obtain ⟨hx1, hx2⟩ := hx
  obtain ⟨hy1, hy2⟩ := hy
  nlinarith [Real.sin_sq_add_cos_sq x, hx1, hx2, hy1, hy2]

/-- The first segment a move shaped from rest (`entry = 0`) emits accelerates
to a strictly positive speed, provided the move is non-degenerate. -/
theorem shape_head_v1_pos {m : QueuedMove} (hN : 0 < defSteps m)
    (ha : 0 < m.accel) (hnom : 0 < m.nominalSq) (hent : m.entrySq = 0)
    (hexit : 0 ≤ m.exitSq) {s : LinearSegmentSteps}
    (hs : (shape m).head? = Option.some s) : 0 < s.v1 := by
  simp only [shape] at hs
  split_ifs at hs with h1 h2 h3 h4
  · exact absurd h1 (ne_of_gt hN)
  · rw [List.head?_cons, Option.some_inj] at hs
    rw [← hs]
    exact Real.sqrt_pos.mpr hnom
  · rw [List.head?_cons, Option.some_inj] at hs
    rw [← hs]
    exact Real.sqrt_pos.mpr hnom
  · rw [List.head?_cons, Option.some_inj] at hs
    rw [← hs]
    apply Real.sqrt_pos.mpr
    rw [hent]
    nlinarith [mul_pos ha hN, hexit]
  · rw [List.head?_cons, Option.some_inj] at hs
    rw [← hs]
    apply Real.sqrt_pos.mpr
    rcases lt_or_eq_of_le hexit with hgt | heq
    · exact hgt
    · exfalso
      apply h4
      rw [hent, ← heq]
      have : (0:ℝ) ⊔ 0 = 0 := max_self 0
      rw [this]
      positivity

theorem two_le_length_append {α : Type} {l1 l2 : List α} (h1 : l1 ≠ [])
    (h2 : l2 ≠ []) : 2 ≤ (l1 ++ l2).length := by
  rw [List.length_append]
  have k1 := List.length_pos.mpr h1
  have k2 := List.length_pos.mpr h2
  omega

/-- Master lemma for the shallow-corner sweep
(`testShallowAngleAllStartingPoints`, `planner_test.cc:314-331`): from any
starting angle `a`, two 100-mm moves at feed 3000 whose directions differ by
`d` degrees, with the turn classified shallow against the 5° threshold, emit
at least two segments and the first emitted segment ends at a strictly
positive step rate (the planner plows through the corner). -/
theorem shallow_sweep (a d : ℝ)
    (hd : Real.arccos (Real.cos (d * Real.pi / 180)) ≤ 5 * Real.pi / 180) :
    2 ≤ (runPlanner (testConfig 5)
        [(sweepTarget1 a, 3000), (sweepTarget2 a d, 3000)]).length ∧
    0 < ((runPlanner (testConfig 5)
        [(sweepTarget1 a, 3000), (sweepTarget2 a d, 3000)]).headI).v1 := by
  have hv : (testConfig 5).Valid := by norm_num [MachineConfig.Valid, testConfig]
  set d1 : Vec3 := ⟨100 * Real.cos (a * Real.pi / 180),
    100 * Real.sin (a * Real.pi / 180), 0⟩ with hd1v
  set d2 : Vec3 := ⟨100 * Real.cos ((a + d) * Real.pi / 180),
    100 * Real.sin ((a + d) * Real.pi / 180), 0⟩ with hd2v
  set m1 : QueuedMove := convertMove (testConfig 5) d1 3000 with hm1v
  set m2 : QueuedMove := convertMove (testConfig 5) d2 3000 with hm2v
  have hnm1 : ¬(m1.deltaSteps.x = 0 ∧ m1.deltaSteps.y = 0 ∧ m1.deltaSteps.z = 0) := by
    rw [hm1v, convertMove_deltaSteps, hd1v]
    exact sweep_steps_ne 5 _
  have hnm2 : ¬(m2.deltaSteps.x = 0 ∧ m2.deltaSteps.y = 0 ∧ m2.deltaSteps.z = 0) := by
    rw [hm2v, convertMove_deltaSteps, hd2v]
    exact sweep_steps_ne 5 _
  have hN1 : 0 < defSteps m1 := by
    rw [hm1v]
    exact defSteps_pos_of_not_zero _ (by rw [hd1v]; exact sweep_steps_ne 5 _) _ rfl rfl
  have hN2 : 0 < defSteps m2 := by
    rw [hm2v]
    exact defSteps_pos_of_not_zero _ (by rw [hd2v]; exact sweep_steps_ne 5 _) _ rfl rfl
  have ha1 : 0 < m1.accel := by
    rw [hm1v]
    exact convertMove_accel_pos _ _ _ hv (by rw [hd1v]; exact sweep_steps_ne 5 _)
  have ha2 : 0 < m2.accel := by
    rw [hm2v]
    exact convertMove_accel_pos _ _ _ hv (by rw [hd2v]; exact sweep_steps_ne 5 _)
  have hn1 : 0 < m1.nominalSq := by
    rw [hm1v]
    refine convertMove_nominalSq_pos _ _ _ hv (by norm_num [testConfig]) (by norm_num)
      ?_ (by rw [hd1v]; exact sweep_steps_ne 5 _)
    rw [hd1v, sweep_normSq]
    norm_num
  have hn2 : 0 < m2.nominalSq := by
    rw [hm2v]
    refine convertMove_nominalSq_pos _ _ _ hv (by norm_num [testConfig]) (by norm_num)
      ?_ (by rw [hd2v]; exact sweep_steps_ne 5 _)
    rw [hd2v, sweep_normSq]
    norm_num
  have hl1 : m1.lenSq = 10000 := by
    rw [hm1v, convertMove_lenSq, hd1v, sweep_normSq]
  have hl2 : m2.lenSq = 10000 := by
    rw [hm2v, convertMove_lenSq, hd2v, sweep_normSq]
  have hds2 : ((m2.deltaSteps.get m2.defAxis : ℤ) : ℝ) ≠ 0 := by
    have h0 := hN2
    unfold defSteps at h0
    exact abs_pos.mp h0
  have hdot : m1.deltaMm.x * m2.deltaMm.x + m1.deltaMm.y * m2.deltaMm.y +
      m1.deltaMm.z * m2.deltaMm.z = 10000 * Real.cos (d * Real.pi / 180) := by
    rw [hm1v, hm2v, convertMove_deltaMm, convertMove_deltaMm, hd1v, hd2v]
    dsimp only
    have h1 := Real.cos_sub ((a + d) * Real.pi / 180) (a * Real.pi / 180)
    have h2 : (a + d) * Real.pi / 180 - a * Real.pi / 180 = d * Real.pi / 180 := by
      ring
    rw [h2] at h1
    linear_combination -10000 * h1
  have hsqrt : Real.sqrt m1.lenSq * Real.sqrt m2.lenSq = 10000 := by
    rw [hl1, hl2, Real.mul_self_sqrt (by norm_num : (0:ℝ) ≤ 10000)]
  have hshallow : Real.arccos (max (-1) (min 1 ((m1.deltaMm.x * m2.deltaMm.x +
      m1.deltaMm.y * m2.deltaMm.y + m1.deltaMm.z * m2.deltaMm.z) /
      (Real.sqrt m1.lenSq * Real.sqrt m2.lenSq)))) ≤
      (testConfig 5).threshold_angle * Real.pi / 180 := by
    rw [hdot, hsqrt, mul_comm (10000:ℝ) (Real.cos (d * Real.pi / 180)),
      mul_div_assoc, div_self (by norm_num : (10000:ℝ) ≠ 0), mul_one,
      min_eq_right (Real.cos_le_one _), max_eq_right (Real.neg_one_le_cos _)]
    exact hd
  have hJpos : 0 < junctionSq (testConfig 5) m1 m2 :=
    junctionSq_pos_of_shallow _ m1 m2 (by rw [hl1]; norm_num) (by rw [hl2]; norm_num)
      hshallow hn1 hn2 (by norm_num [testConfig]) (by norm_num [testConfig])
      (by norm_num [testConfig]) hds2
  have hE0 : 0 ≤ min (junctionSq (testConfig 5) m1 m2)
      (2 * m2.accel * defSteps m2) :=
    le_min (le_of_lt hJpos)
      (mul_nonneg (mul_nonneg (by norm_num) (le_of_lt ha2)) (defSteps_nonneg m2))
  have hpair := runPlanner_pair (testConfig 5) (sweepTarget1 a) (sweepTarget2 a d)
    d1 d2 3000 3000 m1 m2 (junctionSq (testConfig 5) m1 m2)
    (min (junctionSq (testConfig 5) m1 m2) (2 * m2.accel * defSteps m2))
    (by rw [hd1v]; simp [sweepTarget1])
    hm1v.symm
    (by rw [hd2v]; simp only [sweepTarget2, sweepTarget1, Vec3.mk.injEq]
        refine ⟨by ring, by ring, by ring⟩)
    hm2v.symm hnm1 hnm2 rfl (le_of_lt hJpos) (le_of_lt ha1) (le_of_lt ha2) rfl
  have hs1ne : shape { m1 with
      exitSq := min (junctionSq (testConfig 5) m1 m2) (2 * m2.accel * defSteps m2) } ≠ [] :=
    shape_ne_nil (ne_of_gt hN1)
  have hs2ne : shape { m2 with
      entrySq := min (junctionSq (testConfig 5) m1 m2) (2 * m2.accel * defSteps m2) } ≠ [] :=
    shape_ne_nil (ne_of_gt hN2)
  constructor
  · rw [hpair]
    exact two_le_length_append hs1ne hs2ne
  · rw [hpair]
    rcases hsh : shape { m1 with
        exitSq := min (junctionSq (testConfig 5) m1 m2)
          (2 * m2.accel * defSteps m2) } with _ | ⟨s, rest⟩
    · exact absurd hsh hs1ne
    · rw [List.cons_append]
      have hv1 : (shape { m1 with
          exitSq := min (junctionSq (testConfig 5) m1 m2)
            (2 * m2.accel * defSteps m2) }).head? = Option.some s := by
        rw [hsh]
        rfl
      have := shape_head_v1_pos (m := { m1 with
        exitSq := min (junctionSq (testConfig 5) m1 m2) (2 * m2.accel * defSteps m2) })
        hN1 ha1 hn1 rfl hE0 hv1
      simpa using this

/-- Claim C4 (`PlannerTest.CornerMove_Shallow_PositiveAngle`,
`planner_test.cc:333-337`, spec §8 scenario 7): for every starting angle
(in particular the sweep over [0°, 360°) in steps of threshold/2), two moves
whose directions differ by `0.7·threshold = 3.5°` emit at least two segments
and the first emitted segment has `v1 > 0` — the planner does not stop at a
shallow corner. -/
theorem shallow_corner_positive_angle (a : ℝ) :
    2 ≤ (runPlanner (testConfig 5)
        [(sweepTarget1 a, 3000), (sweepTarget2 a (0.7 * 5), 3000)]).length ∧
    0 < ((runPlanner (testConfig 5)
        [(sweepTarget1 a, 3000), (sweepTarget2 a (0.7 * 5), 3000)]).headI).v1 := by
  apply shallow_sweep
  have hpi := Real.pi_pos
  have harg : (0:ℝ) ≤ 0.7 * 5 * Real.pi / 180 := by positivity
  have harg2 : 0.7 * 5 * Real.pi / 180 ≤ Real.pi := by nlinarith
  rw [Real.arccos_cos harg harg2]
  nlinarith

/-- Claim C10 (`PlannerTest.CornerMove_Shallow_NegativeAngle`,
`planner_test.cc:339-343`): the shallow-corner decision depends only on the
magnitude of the angular deviation: turning by `−0.7·threshold = −3.5°`
behaves like `+3.5°` — for every starting angle at least two segments are
emitted and the first emitted segment has `v1 > 0`. -/
theorem shallow_corner_negative_angle (a : ℝ) :
    2 ≤ (runPlanner (testConfig 5)
        [(sweepTarget1 a, 3000), (sweepTarget2 a (-(0.7 * 5)), 3000)]).length ∧
    0 < ((runPlanner (testConfig 5)
        [(sweepTarget1 a, 3000), (sweepTarget2 a (-(0.7 * 5)), 3000)]).headI).v1 := by
  apply shallow_sweep
  have hneg : -(0.7 * 5) * Real.pi / 180 = -(0.7 * 5 * Real.pi / 180) := by ring
  rw [hneg, Real.cos_neg]
  have hpi := Real.pi_pos
  have harg : (0:ℝ) ≤ 0.7 * 5 * Real.pi / 180 := by positivity
  have harg2 : 0.7 * 5 * Real.pi / 180 ≤ Real.pi := by nlinarith
  rw [Real.arccos_cos harg harg2]
  nlinarith

end BeagleG
